import Mathlib

/-!
Verification of the `relatable` embedded relational store.

This file gives a shallow embedding, in Lean, of the storage engine and query
pipeline of the repository: the big-endian byte codecs of the `byteorder`
crate as used by the code, the row codec of `src/schema/src/row.rs`, the
block / block-stream layer of `src/db/src/block.rs` and
`src/db/src/blockdisk.rs`, the operator pipeline and planner of
`src/db/src/table.rs` and `src/db/src/database.rs`, and the SQL type grammar
of `src/parser/src/grammar.rs` / `src/parser/src/lang.rs`.

Bytes are modelled as `Nat` (values < 256 where the code guarantees it),
byte buffers as `List Nat`, machine integers as `Nat`/`Int` with explicit
`% 2 ^ w` where wrap-around matters.  Rust `panic!`s (index out of bounds,
integer underflow, failed `assert!`, `unwrap` of `None`, `unimplemented!`)
are modelled by an explicit `panicked` result; `io::Error` returns by `err`
results; loops of the source that need not terminate are given explicit
fuel, with `outOfFuel` marking that the source loops forever.
-/

namespace Relatable

/-! ## Big-endian integer codecs (the `byteorder` crate as used by the code)

`beBytes w n` is the `w`-byte big-endian encoding of `n % 256 ^ w`;
`beNat` is the corresponding read.  `write_int`/`read_int` of `byteorder`
mask the signed value to the requested width and sign-extend on read. -/

def beBytes : Nat → Nat → List Nat
  | 0, _ => []
  | w + 1, n => beBytes w (n / 256) ++ [n % 256]

def beNat (bs : List Nat) : Nat :=
  bs.foldl (fun a b => a * 256 + b) 0

/-- `byteorder`'s `BigEndian::write_int`: mask the value to `w` bytes
(no panic for `1 ≤ w ≤ 8`: the masked value always packs into `w` bytes). -/
def writeIntBE (v : Int) (w : Nat) : List Nat :=
  beBytes w (v % (2 : Int) ^ (8 * w)).toNat

/-- `byteorder`'s `BigEndian::read_int`: read `w` bytes and sign-extend. -/
def readIntBE (w : Nat) (bs : List Nat) : Int :=
  if beNat (bs.take w) < 2 ^ (8 * w - 1) then (beNat (bs.take w) : Int)
  else (beNat (bs.take w) : Int) - 2 ^ (8 * w)

/-! ## Field kinds and cells (`src/schema/src/field.rs`, `src/schema/src/row.rs`) -/

/-- `FieldKind` of `src/schema/src/field.rs`: `Number(width)`, `Blob(n)`,
`Str(n)` (a `Str` stores an 8-byte length followed by `n` payload bytes). -/
inductive FieldKind : Type
  | number (n : Nat)
  | blob (n : Nat)
  | str (n : Nat)
deriving DecidableEq, Repr

/-- `FieldKind::size`: the on-disk width of one cell of this kind. -/
def FieldKind.size : FieldKind → Nat
  | .number n => n
  | .blob n => n
  | .str n => n + 8

/-- `OwnedRowCell` of `src/schema/src/row.rs`.  A Rust `String` value is
modelled by the list of its UTF-8 bytes (`str::from_utf8` on decode is the
inverse of `String::as_bytes` on encode, so the string/byte-list distinction
is invisible to the codec). -/
inductive OwnedRowCell : Type
  | number (value : Int) (size : Nat)
  | str (value : List Nat) (maxSize : Nat)
  | blob (data : List Nat)
deriving DecidableEq, Repr

/-- Results of an encode step: `panicked` models a Rust panic (the
`max_size - value.len()` underflow in the `Str` arm, or `write_int` with a
width outside `1..=8`).  Writing into an in-memory `Vec` cannot produce an
`io::Error`, so these are the only two outcomes besides success. -/
inductive PanicOr (α : Type) : Type
  | ok (a : α)
  | panicked
deriving DecidableEq, Repr

/-- `OwnedRowCell::persist` of `src/schema/src/row.rs`:
* `Number { value, size }` → `write_int::<BigEndian>(value, size)`;
* `Blob(data)` → the raw bytes;
* `Str { value, max_size }` → 8-byte big-endian length, the bytes, then
  `max_size - value.len()` zero bytes — that subtraction underflows (panics)
  when the value is longer than `max_size`. -/
def OwnedRowCell.persist : OwnedRowCell → PanicOr (List Nat)
  | .number v s =>
      if 1 ≤ s ∧ s ≤ 8 then .ok (writeIntBE v s) else .panicked
  | .blob d => .ok d
  | .str v m =>
      if v.length ≤ m then
        .ok (beBytes 8 v.length ++ v ++ List.replicate (m - v.length) 0)
      else
        .panicked

/-- Sequential cell encoding of `Row::from_cells_impl`: each cell is persisted
into the growing buffer in schema order. -/
def encodeCells : List OwnedRowCell → PanicOr (List Nat)
  | [] => .ok []
  | c :: cs =>
      match c.persist with
      | .ok e =>
          match encodeCells cs with
          | .ok es => .ok (e ++ es)
          | .panicked => .panicked
      | .panicked => .panicked

/-- `Row` of `src/schema/src/row.rs`: a 2-byte meta (one `is_last_row` bit)
plus the payload bytes. -/
structure Row : Type where
  data : List Nat
  is_last_row : Bool
deriving DecidableEq, Repr

/-- `Row::from_cells`: encode the cells, meta bit clear. -/
def Row.from_cells (cells : List OwnedRowCell) : PanicOr Row :=
  match encodeCells cells with
  | .ok d => .ok { data := d, is_last_row := false }
  | .panicked => .panicked

/-- `RowCell::new` (plus the `From<RowCell> for OwnedRowCell` conversion) of
`src/schema/src/row.rs`: decode one cell of kind `k` from the row payload at
byte `offset`.  `none` covers the slice-bound panics and the short-read /
UTF-8 errors of the source; a `Str` value decodes to the same byte list that
was encoded. -/
def decodeCellSlice (slice : List Nat) : FieldKind → Option OwnedRowCell
  | .number n =>
      if n ≤ slice.length ∧ 1 ≤ n ∧ n ≤ 8 then
        some (.number (readIntBE n slice) n)
      else none
  | .blob n =>
      if n ≤ slice.length then some (.blob (slice.take n)) else none
  | .str n =>
      if 8 ≤ slice.length then
        if n ≤ (slice.drop 8).length ∧ beNat (slice.take 8) ≤ n then
          some (.str (((slice.drop 8).take n).take (beNat (slice.take 8))) n)
        else none
      else none

def decodeCellAt (data : List Nat) (k : FieldKind) (offset : Nat) : Option OwnedRowCell :=
  if offset ≤ data.length then decodeCellSlice (data.drop offset) k
  else none

/-- The loop of `Row::into_cells`: decode each field at its cumulative byte
offset. -/
def intoCellsFrom (data : List Nat) : List FieldKind → Nat → Option (List OwnedRowCell)
  | [], _ => some []
  | k :: ks, off =>
      match decodeCellAt data k off with
      | some c => (intoCellsFrom data ks (off + k.size)).map (c :: ·)
      | none => none

/-- `Row::into_cells`: decode the payload against the schema's field kinds. -/
def Row.into_cells (r : Row) (fields : List FieldKind) : Option (List OwnedRowCell) :=
  intoCellsFrom r.data fields 0

/-! ### Conformance of a cell vector to a schema

Mirrors the hypotheses of the round-trip claim: kinds match in field order,
a `Number` value fits its declared width (which schema construction restricts
to 1/2/4/8), a `Str` is no longer than its declared max (a `u64`), a `Blob`
is exactly its declared size. -/

/-- Schema-side validity of a declared kind: `SchemaField::new` rejects
`Number` widths outside 1/2/4/8; `Blob`/`Str` sizes are `u64`s. -/
def validKind : FieldKind → Bool
  | .number n => n == 1 || n == 2 || n == 4 || n == 8
  | .blob _ => true
  | .str n => decide (n < 2 ^ 64)

def cellConforms : OwnedRowCell → FieldKind → Bool
  | .number v s, .number n =>
      s == n && decide (-(2 : Int) ^ (8 * n - 1) ≤ v) && decide (v < (2 : Int) ^ (8 * n - 1))
  | .str v m, .str n => m == n && decide (v.length ≤ n)
  | .blob d, .blob n => d.length == n
  | _, _ => false

def rowConforms : List OwnedRowCell → List FieldKind → Bool
  | [], [] => true
  | c :: cs, k :: ks => cellConforms c k && validKind k && rowConforms cs ks
  | _, _ => false

/-! ## Blocks and the in-block view (`src/db/src/block.rs`) -/

/-- Unified result type for the I/O layer. `eofErr` is
`io::ErrorKind::UnexpectedEof`, `ioErr` any other `io::Error`, `panicked` a
Rust panic, and `outOfFuel` marks that the corresponding source loop does
not terminate within the given fuel. -/
inductive IOResult (α : Type) : Type
  | ok (a : α)
  | eofErr
  | ioErr
  | panicked
  | outOfFuel
deriving DecidableEq, Repr

def IOResult.bind {α β : Type} : IOResult α → (α → IOResult β) → IOResult β
  | .ok a, f => f a
  | .eofErr, _ => .eofErr
  | .ioErr, _ => .ioErr
  | .panicked, _ => .panicked
  | .outOfFuel, _ => .outOfFuel

/-- `BlockMeta`: the file offset (not written to disk), the optional `next`
link (0 on disk encodes `None`), and the `size` counter of bytes written. -/
structure BlockMeta : Type where
  offset : Nat
  next_block : Option Nat
  size : Nat
deriving DecidableEq, Repr

structure Block : Type where
  data : List Nat
  meta : BlockMeta
deriving DecidableEq, Repr

/-- `Block::new`: a zeroed payload of `blocksize - 16` bytes, no next link,
size 0. -/
def Block.new (offset blocksize : Nat) : Block :=
  { data := List.replicate (blocksize - 16) 0,
    meta := { offset := offset, next_block := none, size := 0 } }

def Block.set_next_block (b : Block) (next : Option Nat) : Block :=
  { b with meta := { b.meta with next_block := next } }

/-- The byte loop of `io::Write for BlockDiskView`: before each byte the view
checks for end-of-payload and returns the count written so far; each byte
written unconditionally increments the block's `size` counter. -/
def view_write_loop : Block → Nat → List Nat → Nat → Nat × Block × Nat
  | b, cursor, [], written => (written, b, cursor)
  | b, cursor, byte :: restBytes, written =>
      if cursor < b.data.length then
        view_write_loop
          { data := b.data.set cursor byte,
            meta := { b.meta with size := b.meta.size + 1 } }
          (cursor + 1) restBytes (written + 1)
      else (written, b, cursor)

/-- `io::Write for BlockDiskView::write`: an `UnexpectedEof` error when the
cursor starts at/after the end of the payload, otherwise the byte loop.
Returns (bytes written, updated block, new cursor). -/
def view_write (b : Block) (cursor : Nat) (buf : List Nat) : IOResult (Nat × Block × Nat) :=
  if cursor < b.data.length then .ok (view_write_loop b cursor buf 0) else .eofErr

/-- The byte loop of `io::Read for BlockDiskView`. -/
def view_read_loop (b : Block) : Nat → Nat → List Nat
  | _, 0 => []
  | cursor, n + 1 =>
      if cursor < b.data.length then
        b.data.getD cursor 0 :: view_read_loop b (cursor + 1) n
      else []

/-- `io::Read for BlockDiskView::read`: `UnexpectedEof` at end-of-payload,
otherwise up to `n` bytes from the payload. -/
def view_read (b : Block) (cursor : Nat) (n : Nat) : IOResult (List Nat × Nat) :=
  if cursor < b.data.length then
    .ok (view_read_loop b cursor n, cursor + (view_read_loop b cursor n).length)
  else .eofErr

/-! ## The block allocator (`impl BlockAllocator for Database`,
`src/db/src/database.rs`)

The backing file plus header is modelled by the allocated-block counter and
a store of persisted blocks keyed by offset (`write_block` prepends, reads
take the most recent write). -/

structure Disk : Type where
  block_size : Nat
  num_allocated_blocks : Nat
  store : List Block
deriving DecidableEq, Repr

def Disk.read_block (d : Disk) (offset : Nat) : IOResult Block :=
  match d.store.find? (fun b => b.meta.offset == offset) with
  | some b => .ok b
  | none => .ioErr

def Disk.write_block (d : Disk) (b : Block) : Disk :=
  { d with store := b :: d.store }

/-- `Database::allocate_block`: a fresh zeroed block at
`num_allocated_blocks * block_size`; the counter is incremented and the
header re-persisted, and the block is persisted. -/
def Disk.allocate_block (d : Disk) : Disk × Block :=
  let b := Block.new (d.num_allocated_blocks * d.block_size) d.block_size
  ({ d with num_allocated_blocks := d.num_allocated_blocks + 1,
            store := b :: d.store }, b)

/-! ## BlockDisk — the block-chain byte stream (`src/db/src/blockdisk.rs`) -/

/-- `BlockDisk`: the in-memory loaded prefix of the chain and the logical
byte cursor. -/
structure BlockDisk : Type where
  blocks : List Block
  current_offset : Nat
deriving DecidableEq, Repr

def BlockDisk.new (d : Disk) (start_block_offset : Nat) : IOResult (Disk × BlockDisk) :=
  (d.read_block start_block_offset).bind fun b =>
    .ok (d, { blocks := [b], current_offset := 0 })

def BlockDisk.from_block (b : Block) : BlockDisk :=
  { blocks := [b], current_offset := 0 }

/-- `BlockDisk::block_size`: the payload length of the first loaded block. -/
def BlockDisk.block_size (bd : BlockDisk) : Nat :=
  match bd.blocks with
  | [] => 0
  | b :: _ => b.data.length

def BlockDisk.current_size_allocated (bd : BlockDisk) : Nat :=
  bd.block_size * bd.blocks.length

/-- `BlockDisk::current_disk_size`: the sum of the per-block `size` fields. -/
def BlockDisk.current_disk_size (bd : BlockDisk) : Nat :=
  (bd.blocks.map (fun b => b.meta.size)).sum

/-- `BlockDisk::allocate_new_block_at_end`: allocate a fresh block, link it
from the previous tail, persist the tail's header. -/
def allocate_new_block_at_end (d : Disk) (bd : BlockDisk) : IOResult (Disk × BlockDisk) :=
  match bd.blocks.getLast? with
  | none => .panicked
  | some tailB =>
      match tailB.meta.next_block with
      | some _ => .ok (d, bd)
      | none =>
          let p := d.allocate_block
          let tailB' := tailB.set_next_block (some p.2.meta.offset)
          .ok (p.1.write_block tailB',
               { bd with blocks := bd.blocks.dropLast ++ [tailB', p.2] })

/-- `BlockDisk::increase_read_size_by_block`: follow the tail's `next` link,
or — only under `force` — allocate a fresh block at the end.  Returns whether
the loaded chain grew. -/
def increase_read_size_by_block (force : Bool) (d : Disk) (bd : BlockDisk) :
    IOResult (Bool × Disk × BlockDisk) :=
  match bd.blocks.getLast? with
  | none => .panicked
  | some tailB =>
      match tailB.meta.next_block with
      | some off =>
          (d.read_block off).bind fun b =>
            .ok (true, d, { bd with blocks := bd.blocks ++ [b] })
      | none =>
          if force then
            (allocate_new_block_at_end d bd).bind fun p =>
              .ok (true, p.1, p.2)
          else .ok (false, d, bd)

/-- `BlockDisk::ensure_num_blocks`: `while self.blocks.len() < num { ... }`.
The source ignores the boolean returned by `increase_read_size_by_block`, so
when growth is impossible (no next link, no force) the loop never exits; the
fuel makes that observable as `outOfFuel`. -/
def ensure_num_blocks (fuel num : Nat) (force : Bool) (d : Disk) (bd : BlockDisk) :
    IOResult (Disk × BlockDisk) :=
  match fuel with
  | 0 => if bd.blocks.length < num then .outOfFuel else .ok (d, bd)
  | fuel + 1 =>
      if bd.blocks.length < num then
        (increase_read_size_by_block force d bd).bind fun t =>
          ensure_num_blocks fuel num force t.2.1 t.2.2
      else .ok (d, bd)

/-- The `while !buf.is_empty()` loop of `io::Read for BlockDisk` (reads never
force allocation; an `UnexpectedEof` from the view is `unreachable!()` in the
source, i.e. a panic). -/
def bd_read_loop (fuel : Nat) (d : Disk) (bd : BlockDisk) (remaining : Nat) (acc : List Nat) :
    IOResult (List Nat × Disk × BlockDisk) :=
  match fuel with
  | 0 => .outOfFuel
  | fuel + 1 =>
      if remaining = 0 then .ok (acc, d, bd)
      else
        let bs := bd.block_size
        let idx := bd.current_offset / bs
        (ensure_num_blocks fuel (idx + 1) false d bd).bind fun p =>
          match p.2.blocks.get? idx with
          | none => .ok (acc, p.1, p.2)
          | some blk =>
              match view_read blk (p.2.current_offset % bs) remaining with
              | .ok br =>
                  bd_read_loop fuel p.1
                    { p.2 with current_offset := p.2.current_offset + br.1.length }
                    (remaining - br.1.length) (acc ++ br.1)
              | .eofErr => .panicked
              | .ioErr => .ioErr
              | .panicked => .panicked
              | .outOfFuel => .outOfFuel

def bd_read (fuel : Nat) (d : Disk) (bd : BlockDisk) (n : Nat) :
    IOResult (List Nat × Disk × BlockDisk) :=
  bd_read_loop fuel d bd n []

/-- `std::io::Read::read_exact` over a `BlockDisk`: a short result is an
`UnexpectedEof` error. -/
def bd_read_exact (fuel : Nat) (d : Disk) (bd : BlockDisk) (n : Nat) :
    IOResult (List Nat × Disk × BlockDisk) :=
  (bd_read fuel d bd n).bind fun r =>
    if r.1.length = n then .ok r else .eofErr

/-- The `while !buf.is_empty()` loop of `io::Write for BlockDisk`: ensure the
target block (forcing allocation), delegate to the view, persist the touched
block, continue with the unwritten remainder.  Combined with `write_all`
callers this writes the whole buffer or fails. -/
def bd_write_loop (fuel : Nat) (d : Disk) (bd : BlockDisk) (buf : List Nat) :
    IOResult (Disk × BlockDisk) :=
  match fuel with
  | 0 => .outOfFuel
  | fuel + 1 =>
      match buf with
      | [] => .ok (d, bd)
      | _ :: _ =>
          let bs := bd.block_size
          let idx := bd.current_offset / bs
          (ensure_num_blocks fuel (idx + 1) true d bd).bind fun p =>
            match p.2.blocks.get? idx with
            | none => .panicked
            | some blk =>
                match view_write blk (p.2.current_offset % bs) buf with
                | .ok wr =>
                    bd_write_loop fuel (p.1.write_block wr.2.1)
                      { blocks := p.2.blocks.set idx wr.2.1,
                        current_offset := p.2.current_offset + wr.1 }
                      (buf.drop wr.1)
                | .eofErr => .panicked
                | .ioErr => .ioErr
                | .panicked => .panicked
                | .outOfFuel => .outOfFuel

/-- `io::SeekFrom`. -/
inductive SeekFrom : Type
  | start (offset : Nat)
  | fromEnd (offset : Int)
  | current (offset : Int)
deriving DecidableEq, Repr

/-- The `SeekFrom::End` chain walk:
`while self.increase_read_size_by_block(false)? {}`. -/
def seek_walk (fuel : Nat) (d : Disk) (bd : BlockDisk) : IOResult (Disk × BlockDisk) :=
  match fuel with
  | 0 => .outOfFuel
  | fuel + 1 =>
      (increase_read_size_by_block false d bd).bind fun t =>
        if t.1 then seek_walk fuel t.2.1 t.2.2 else .ok (t.2.1, t.2.2)

/-- The growth loop at the end of `seek`:
`while self.current_size_allocated() < next_offset { increase(true) }`. -/
def seek_alloc_loop (fuel target : Nat) (d : Disk) (bd : BlockDisk) :
    IOResult (Disk × BlockDisk) :=
  match fuel with
  | 0 => if bd.current_size_allocated < target then .outOfFuel else .ok (d, bd)
  | fuel + 1 =>
      if bd.current_size_allocated < target then
        (increase_read_size_by_block true d bd).bind fun t =>
          seek_alloc_loop fuel target t.2.1 t.2.2
      else .ok (d, bd)

/-- `io::Seek for BlockDisk::seek`: compute the absolute target
(`Start` directly; `End` after walking the chain, with `assert!`s on the
signs; `Current` with a clean `InvalidInput` error on a negative result),
then grow the chain until its loaded capacity covers the target, and set the
cursor. -/
def bd_seek_target (fuel : Nat) (d : Disk) (bd : BlockDisk) :
    SeekFrom → IOResult (Nat × Disk × BlockDisk)
  | .start off => .ok (off, d, bd)
  | .fromEnd off =>
      (seek_walk fuel d bd).bind fun p =>
        if 0 < off then .panicked
        else
          if ((p.2.current_disk_size : Int) + off) < 0 then .panicked
          else .ok (((p.2.current_disk_size : Int) + off).toNat, p.1, p.2)
  | .current off =>
      if ((bd.current_offset : Int) + off) < 0 then .ioErr
      else .ok (((bd.current_offset : Int) + off).toNat, d, bd)

def bd_seek (fuel : Nat) (d : Disk) (bd : BlockDisk) (pos : SeekFrom) :
    IOResult (Nat × Disk × BlockDisk) :=
  (bd_seek_target fuel d bd pos).bind fun t =>
    (seek_alloc_loop fuel t.1 t.2.1 t.2.2).bind fun p =>
      .ok (t.1, p.1, { p.2 with current_offset := t.1 })

/-! ## The sentinel-row append protocol (`src/schema/src/row.rs`) over a
`BlockDisk`, and row reads by index (`impl RowReader for Database`,
`src/db/src/database.rs`). -/

def sizeof_row (fields : List FieldKind) : Nat := (fields.map FieldKind.size).sum

/-- `Row::sizeof_row_on_disk`: 2 meta bytes plus the row width. -/
def sizeof_row_on_disk (fields : List FieldKind) : Nat := sizeof_row fields + 2

/-- `RowMeta::persist`: a big-endian `u16` holding the `is_last_row` bit. -/
def rowMetaBytes (is_last : Bool) : List Nat := [0, if is_last then 1 else 0]

/-- `Row::insert_sentinal_row`: meta with `is_last_row = 1`, then a zero
payload of one row width. -/
def insert_sentinal_row (fuel : Nat) (fields : List FieldKind) (d : Disk) (bd : BlockDisk) :
    IOResult (Disk × BlockDisk) :=
  (bd_write_loop fuel d bd (rowMetaBytes true)).bind fun p =>
    bd_write_loop fuel p.1 p.2 (List.replicate (sizeof_row fields) 0)

/-- `Row::init_table`: write the initial sentinel row. -/
def init_table (fuel : Nat) (fields : List FieldKind) (d : Disk) (bd : BlockDisk) :
    IOResult (Disk × BlockDisk) :=
  insert_sentinal_row fuel fields d bd

/-- `Row::insert_row`: seek to `End(-(2 + row_width))`, overwrite the old
sentinel with the new row (`is_last_row = 0`), then append a fresh
sentinel. -/
def insert_row (fuel : Nat) (cells : List OwnedRowCell) (d : Disk) (bd : BlockDisk)
    (fields : List FieldKind) : IOResult (Disk × BlockDisk) :=
  (bd_seek fuel d bd (.fromEnd (-(sizeof_row_on_disk fields : Int)))).bind fun s =>
    match Row.from_cells cells with
    | .panicked => .panicked
    | .ok row =>
        (bd_write_loop fuel s.2.1 s.2.2 (rowMetaBytes false)).bind fun p =>
          (bd_write_loop fuel p.1 p.2 row.data).bind fun q =>
            insert_sentinal_row fuel fields q.1 q.2

/-- `Database::read_nth_row`: open a `BlockDisk` at the table's data chain,
seek to the row slot, decode meta and payload (`Row::from_schema`); a set
`is_last_row` bit yields `none`, a meta value other than 0/1 is
`RowCellError::InvalidRowMeta`. -/
def read_nth_row (fuel : Nat) (d : Disk) (data_block_offset : Nat)
    (fields : List FieldKind) (index : Nat) : IOResult (Option (List Nat) × Disk) :=
  (BlockDisk.new d data_block_offset).bind fun p =>
    (bd_seek fuel p.1 p.2 (.start (sizeof_row_on_disk fields * index))).bind fun s =>
      (bd_read_exact fuel s.2.1 s.2.2 2).bind fun m =>
        (bd_read_exact fuel m.2.1 m.2.2 (sizeof_row fields)).bind fun r =>
          match beNat m.1 with
          | 0 => .ok (some r.1, r.2.1)
          | 1 => .ok (none, r.2.1)
          | _ => .ioErr

/-! ## The operator pipeline (`src/db/src/table.rs`) -/

/-- `ColumnIdent` of the parser AST (`src/parser/src/ast.rs`): a column name
with an optional table qualifier. -/
structure ColumnIdent : Type where
  name : String
  table : Option String
deriving DecidableEq, Repr

inductive TableFieldLiteral : Type
  | number (value : Int)
  | strLit (value : List Nat)
  | blobLit (data : List Nat)
deriving DecidableEq, Repr

/-- `TableField`: optional qualified column identity, kind, optional inline
literal. -/
structure TableField : Type where
  column : Option ColumnIdent
  kind : FieldKind
  literal_value : Option TableFieldLiteral
deriving DecidableEq, Repr

/-- `OwnedRowCell::coerce_to` (the `Field` trait only exposes the kind):
`Blob` truncates or zero-pads to the target size, `Number` adopts the target
width, `Str` adopts the target max size; mismatched kinds fail. -/
def OwnedRowCell.coerce_to : OwnedRowCell → FieldKind → Option OwnedRowCell
  | .blob dta, .blob needed =>
      if dta.length = needed then some (.blob dta)
      else if needed < dta.length then some (.blob (dta.take needed))
      else some (.blob (dta ++ List.replicate (needed - dta.length) 0))
  | .blob _, _ => none
  | .number v _, .number n => some (.number v n)
  | .number _ _, _ => none
  | .str v _, .str n => some (.str v n)
  | .str _ _, _ => none

/-- `SchemaField` of `src/schema/src/field.rs`: a named, kinded column. -/
structure SchemaField : Type where
  name : String
  kind : FieldKind
deriving DecidableEq, Repr

/-- `Schema`: a table name and its ordered fields. -/
structure Schema : Type where
  name : String
  fields : List SchemaField
deriving DecidableEq, Repr

/-- `OnDiskSchema`: head offset of the table's data chain plus the schema. -/
structure OnDiskSchema : Type where
  data_block_offset : Nat
  schema : Schema
deriving DecidableEq, Repr

def Schema.field? (s : Schema) (name : String) : Option SchemaField :=
  s.fields.find? (fun f => f.name == name)

/-- `SchemaReader::schema`: each source field, qualified with the table
name. -/
def schemaReaderFields (s : OnDiskSchema) : List TableField :=
  s.schema.fields.map fun f =>
    { column := some { name := f.name, table := some s.schema.name },
      kind := f.kind, literal_value := none }

/-- The `RowReader` capability handed to the operators (`read_nth_row`
backed by the `Database`): during one query the table contents are fixed, so
the reader is modelled as a pure map from table name to the list of row
payloads of its data chain (up to, and excluding, the sentinel). -/
def RowReader : Type := String → List (List Nat)

/-- The operator tree: `SchemaReader` (scan with its row index),
`MultiTableIterator` (cross join), `MapSchema` (projection / alias / literal
injection with its precomputed lookup). -/
inductive Op : Type
  | scan (schema : OnDiskSchema) (current_row : Nat)
  | multi (tables : List Op)
  | mapSchema (prev_schema_lookup : List (ColumnIdent × TableField × Nat))
      (schema : List TableField) (iter : Op)

mutual

/-- `Table::schema` by variant dispatch (`MultiTableIterator::schema`
concatenates the child schemas in order). -/
def Op.schema : Op → List TableField
  | .scan s _ => schemaReaderFields s
  | .multi ts => schemaList ts
  | .mapSchema _ sch _ => sch

def schemaList : List Op → List TableField
  | [] => []
  | t :: ts => t.schema ++ schemaList ts

end

mutual

/-- `Table::reset` by variant dispatch (the cross join resets all its
children; the projection resets its child). -/
def Op.reset : Op → Op
  | .scan s _ => .scan s 0
  | .multi ts => .multi (resetList ts)
  | .mapSchema lk sch it => .mapSchema lk sch it.reset

def resetList : List Op → List Op
  | [] => []
  | t :: ts => t.reset :: resetList ts

end

/-- Operator results: `err` is a `TableError` return, `panicked` a Rust
panic (`unwrap`, `unimplemented!`, index out of bounds). -/
inductive OpResult (α : Type) : Type
  | ok (a : α)
  | err
  | panicked
  | outOfFuel
deriving DecidableEq, Repr

def OpResult.bind {α β : Type} : OpResult α → (α → OpResult β) → OpResult β
  | .ok a, f => f a
  | .err, _ => .err
  | .panicked, _ => .panicked
  | .outOfFuel, _ => .outOfFuel

/-- The projection body of `MapSchema::current_row` applied to one child
row: literals are materialized and coerced (`unwrap` panics on a mismatch),
columns are looked up and extracted at their precomputed offset. -/
def map_output_cells (lookup : List (ColumnIdent × TableField × Nat)) (row : List Nat) :
    List TableField → OpResult (List OwnedRowCell)
  | [] => .ok []
  | f :: fs =>
      match f.literal_value with
      | some lit =>
          let cell : OwnedRowCell := match lit with
            | .blobLit dta => .blob dta
            | .strLit s => .str s s.length
            | .number v => .number v 8
          match cell.coerce_to f.kind with
          | some cell' =>
              (map_output_cells lookup row fs).bind fun cs => .ok (cell' :: cs)
          | none => .panicked
      | none =>
          match f.column with
          | none => .err
          | some col =>
              match lookup.find? (fun e => e.1 == col) with
              | some e =>
                  match decodeCellAt row e.2.1.kind e.2.2 with
                  | some c => (map_output_cells lookup row fs).bind fun cs => .ok (c :: cs)
                  | none => .err
              | none => .err

/-- `MapSchema::new`'s precomputation: walk the child schema accumulating
byte offsets; a column whose identity appears in the alias mapping is keyed
under its bare alias name instead.  (`BTreeMap::insert` overwrites, so the
entry list is built newest-first and looked up first-match.) -/
def mk_prev_schema_lookup_go (alias_mapping : List (ColumnIdent × String)) :
    List TableField → Nat → List (ColumnIdent × TableField × Nat) →
      List (ColumnIdent × TableField × Nat)
  | [], _, acc => acc
  | f :: fs, offset, acc =>
      let acc' := match f.column with
        | some column =>
            let real_name : ColumnIdent :=
              match alias_mapping.find? (fun a => a.1 == column) with
              | some a => { name := a.2, table := none }
              | none => column
            (real_name, f, offset) :: acc
        | none => acc
      mk_prev_schema_lookup_go alias_mapping fs (offset + f.kind.size) acc'

def mk_prev_schema_lookup (prev_schema : List TableField)
    (alias_mapping : List (ColumnIdent × String)) : List (ColumnIdent × TableField × Nat) :=
  mk_prev_schema_lookup_go alias_mapping prev_schema 0 []

/-- `Table::map_schema`: wrap an operator in a `MapSchema` built from its own
output schema. -/
def mk_map_schema (next_schema : List TableField) (alias_mapping : List (ColumnIdent × String))
    (it : Op) : Op :=
  .mapSchema (mk_prev_schema_lookup it.schema alias_mapping) next_schema it

/-- The `for table in self.tables.iter_mut()` sweep of
`MultiTableIterator::next_row`, parametrized by the advance function `nr`
for the children: advance each table; a `Some` row is appended and records
that a row was seen; a `None` resets the table, advances it again and
`unwrap`s the result (a panic when even the reset table is empty — note the
reset-path rows do **not** mark a row as seen, exactly as in the source). -/
def multi_sweep (nr : Op → RowReader → OpResult (Option (List Nat) × Op)) (r : RowReader) :
    List Op → OpResult (List Nat × Bool × List Op)
  | [] => .ok ([], false, [])
  | t :: ts =>
      (nr t r).bind fun p =>
        match p.1 with
        | some dta =>
            (multi_sweep nr r ts).bind fun q =>
              .ok (dta ++ q.1, true, p.2 :: q.2.2)
        | none =>
            (nr p.2.reset r).bind fun p2 =>
              match p2.1 with
              | some dta =>
                  (multi_sweep nr r ts).bind fun q =>
                    .ok (dta ++ q.1, q.2.1, p2.2 :: q.2.2)
              | none => .panicked

/-- The body of `MapSchema::current_row`, parametrized by the advance
function `nr` for the child: the source calls `self.iter.next_row(disk)?`
to obtain "the current row" — advancing the child — then projects the row
through the output schema and re-encodes it with `Row::from_cells`. -/
def map_current_with (nr : Op → RowReader → OpResult (Option (List Nat) × Op))
    (lk : List (ColumnIdent × TableField × Nat)) (sch : List TableField) (it : Op)
    (r : RowReader) : OpResult (Option (List Nat) × Op) :=
  (nr it r).bind fun p =>
    match p.1 with
    | none => .ok (none, .mapSchema lk sch p.2)
    | some row =>
        (map_output_cells lk row sch).bind fun cells =>
          match Row.from_cells cells with
          | .ok newRow => .ok (some newRow.data, .mapSchema lk sch p.2)
          | .panicked => .panicked

/-- `Table::next_row` by variant dispatch, with fuel (every nested advance
runs at decremented fuel; the concrete evaluations below use ample fuel).

* `SchemaReader::next_row`: read at the current index; on a row, advance.
* `MultiTableIterator::next_row` (the source verbatim): first advance
  `tables[0]` (an index panic when empty), collecting its row if any; then
  sweep over **all** tables again — including the just-advanced first one —
  and return `None` only when no advance produced a row.
* `MapSchema::next_row`: advance the child, drop the result, then delegate
  to `current_row` — which advances the child again. -/
def next_row : Nat → Op → RowReader → OpResult (Option (List Nat) × Op)
  | 0, _, _ => .outOfFuel
  | fuel + 1, op, r =>
      let nr := next_row fuel
      match op with
      | .scan s i =>
          match (r s.schema.name).get? i with
          | some row => .ok (some row, .scan s (i + 1))
          | none => .ok (none, .scan s i)
      | .multi ts =>
          match ts with
          | [] => .panicked
          | t0 :: restTs =>
              (nr t0 r).bind fun first =>
                (multi_sweep nr r (first.2 :: restTs)).bind fun sweep =>
                  let buf := (match first.1 with | some dta => dta | none => []) ++ sweep.1
                  if first.1.isSome || sweep.2.1 then .ok (some buf, .multi sweep.2.2)
                  else .ok (none, .multi sweep.2.2)
      | .mapSchema lk sch it =>
          (nr it r).bind fun p =>
            map_current_with nr lk sch p.2 r

/-- `Table::current_row` by variant dispatch:
`SchemaReader` reads at the current index without touching any state;
`MultiTableIterator::current_row` is `unimplemented!()` (a panic);
`MapSchema::current_row` advances its child (see `map_current`). -/
def current_row (fuel : Nat) : Op → RowReader → OpResult (Option (List Nat) × Op)
  | .scan s i, r => .ok ((r s.schema.name).get? i, .scan s i)
  | .multi _, _ => .panicked
  | .mapSchema lk sch it, r => map_current_with (next_row fuel) lk sch it r

/-! ## The SELECT planner (`src/db/src/database.rs`) -/

inductive LiteralValue : Type
  | numericLiteral (n : Int)
  | stringLiteral (s : List Nat)
  | blobLiteral (b : List Nat)
deriving DecidableEq, Repr

inductive SelectExpr : Type
  | columnIdent (c : ColumnIdent)
  | literalValue (v : LiteralValue)
deriving DecidableEq, Repr

inductive ResultColumn : Type
  | asterisk
  | tableAsterisk (table : String)
  | expr (value : SelectExpr) (aliasName : Option String)
deriving DecidableEq, Repr

/-- `Database::transform_literal_value_to_field`.  (The source's redundant
second hex decode of an already decoded blob literal is not modelled; no
claim exercises blob literals.) -/
def transform_literal_value_to_field (lit : LiteralValue) (aliasOpt : Option String) :
    TableField :=
  let aliasCol : Option ColumnIdent := aliasOpt.map fun a => { name := a, table := none }
  match lit with
  | .numericLiteral n =>
      { column := aliasCol, kind := .number 8, literal_value := some (.number n) }
  | .stringLiteral s =>
      { column := aliasCol, kind := .str s.length, literal_value := some (.strLit s) }
  | .blobLiteral b =>
      { column := aliasCol, kind := .blob b.length, literal_value := some (.blobLit b) }

/-- `Database::create_schema_mapping_for_select_statement` for one table of
the FROM list: extend the collected output schema and alias map.
`*` expands to the table's qualified fields; `table.*` is
`unimplemented!()`; a column reference is resolved against the table (an
error when missing) and an alias records both the mapping entry and the
bare-alias output identity; a literal synthesizes a field of the literal's
natural kind. -/
def create_schema_mapping (table : OnDiskSchema) :
    List ResultColumn → List TableField → List (ColumnIdent × String) →
      OpResult (List TableField × List (ColumnIdent × String))
  | [], next_schema, alias_mapping => .ok (next_schema, alias_mapping)
  | .asterisk :: cols, next_schema, alias_mapping =>
      create_schema_mapping table cols (next_schema ++ schemaReaderFields table) alias_mapping
  | .tableAsterisk _ :: _, _, _ => .panicked
  | .expr (.columnIdent ci) aliasOpt :: cols, next_schema, alias_mapping =>
      match table.schema.field? ci.name with
      | none => .err
      | some sf =>
          let tci : ColumnIdent := { name := ci.name, table := some (ci.table.getD table.schema.name) }
          let alias_mapping' := match aliasOpt with
            | some a => (tci, a) :: alias_mapping
            | none => alias_mapping
          let outCol : ColumnIdent := match aliasOpt with
            | some a => { name := a, table := none }
            | none => tci
          create_schema_mapping table cols
            (next_schema ++ [{ column := some outCol, kind := sf.kind, literal_value := none }])
            alias_mapping'
  | .expr (.literalValue lv) aliasOpt :: cols, next_schema, alias_mapping =>
      create_schema_mapping table cols
        (next_schema ++ [transform_literal_value_to_field lv aliasOpt]) alias_mapping

/-- `Database::get_table`: look the table up in the catalog. -/
def get_table (catalog : List OnDiskSchema) (name : String) : OpResult OnDiskSchema :=
  match catalog.find? (fun t => t.schema.name == name) with
  | some t => .ok t
  | none => .err

/-- The per-table loop of `Database::read_select_statement`: resolve each
FROM table, extend the collected output schema and alias map, and build a
`SchemaReader`. -/
def select_tables_loop (catalog : List OnDiskSchema) (columns : List ResultColumn) :
    List String → List TableField → List (ColumnIdent × String) → List Op →
      OpResult (List TableField × List (ColumnIdent × String) × List Op)
  | [], next_schema, alias_mapping, readers => .ok (next_schema, alias_mapping, readers)
  | tname :: tnames, next_schema, alias_mapping, readers =>
      (get_table catalog tname).bind fun table =>
        (create_schema_mapping table columns next_schema alias_mapping).bind fun acc =>
          select_tables_loop catalog columns tnames acc.1 acc.2
            (readers ++ [.scan table 0])

/-- `Database::read_select_statement`: a missing FROM list is
`unimplemented!()`; otherwise resolve the tables, collect the output schema
and alias map, and fold the scans into a cross-join tree.  The collected
`next_schema` and `alias_mapping` are then dropped — the source returns the
folded iterator without any `MapSchema` wrap. -/
def read_select_statement (catalog : List OnDiskSchema) (columns : List ResultColumn) :
    Option (List String) → OpResult Op
  | none => .panicked
  | some tnames =>
      (select_tables_loop catalog columns tnames [] [] []).bind fun acc =>
        match acc.2.2 with
        | [] => .panicked
        | first :: restR => .ok (restR.foldl (fun a b => Op.multi [a, b]) first)

/-! ## The SQL type grammar (`src/parser/src/grammar.rs`,
`src/parser/src/lang.rs`, `src/parser/src/tokenizer.rs`) -/

inductive Kind : Type
  | createK | tableK | integerK | varcharK | insertK | intoK | valueK | valuesK
  | selectK | fromK | asK | identK | xK | nullK | stringLit | numericLit
  | comma | period | leftParen | rightParen | semiColon | asterisk
deriving DecidableEq, Repr

/-- `Sql::keywords` of `src/parser/src/lang.rs`, in source order; all are
case-insensitive.  There is no `blob` keyword. -/
def keywords : List (String × Kind) :=
  [("as", .asK), ("null", .nullK), ("x", .xK), ("create", .createK),
   ("table", .tableK), ("integer", .integerK), ("varchar", .varcharK),
   ("insert", .insertK), ("into", .intoK), ("values", .valuesK),
   ("value", .valueK), ("select", .selectK), ("from", .fromK)]

/-- ASCII case-insensitive prefix match: does the input start with the
(lowercase) keyword text, comparing the input's prefix lowercased?  (The
source lowercases with `str::to_lowercase`; all inputs here are ASCII.)
An input shorter than the keyword does not match. -/
def ciPrefixMatch : List Char → List Char → Bool
  | _, [] => true
  | [], _ :: _ => false
  | a :: as, b :: bs =>
      ((if 65 ≤ a.toNat ∧ a.toNat ≤ 90 then a.toNat + 32 else a.toNat) == b.toNat)
        && ciPrefixMatch as bs

/-- `TokenStream::peek_keyword`: the first keyword whose text matches the
lowercased prefix of the remaining input.  A word matching no keyword falls
through to the identifier regex class. -/
def peek_keyword (s : String) : Option Kind :=
  (keywords.find? (fun kw => ciPrefixMatch s.data kw.1.data)).map (fun kw => kw.2)

structure Token : Type where
  kind : Kind
  value : String
deriving DecidableEq, Repr

/-- `Type` of `src/parser/src/ast.rs` (the AST itself has all three). -/
inductive SqlType : Type
  | integer
  | blob
  | varchar
deriving DecidableEq, Repr

structure TypeName : Type where
  name : SqlType
  argument : Option Nat
deriving DecidableEq, Repr

structure ColumnDef : Type where
  column_name : String
  type_name : TypeName
deriving DecidableEq, Repr

structure CreateTableStatement : Type where
  table_name : String
  column_defs : List ColumnDef
deriving DecidableEq, Repr

/-- The `r#type` production of `src/parser/src/grammar.rs`:
`choice((token(Integer), token(Varchar)))` — there is no `BLOB`
alternative. -/
def typeTokP : List Token → Option (SqlType × List Token)
  | t :: rest =>
      if t.kind = .integerK then some (.integer, rest)
      else if t.kind = .varcharK then some (.varchar, rest)
      else none
  | [] => none

/-- Decimal parse of a numeric token's text (the tokenizer's
`[0-9]+` class guarantees this succeeds on real tokens; the grammar then
does `parse::<i64>().unwrap()`). -/
def parseNatList : List Char → Nat → Option Nat
  | [], acc => some acc
  | c :: cs, acc =>
      if 48 ≤ c.toNat ∧ c.toNat ≤ 57 then parseNatList cs (acc * 10 + (c.toNat - 48))
      else none

def parseNatTok (s : String) : Option Nat :=
  match s.data with
  | [] => none
  | l => parseNatList l 0

def numericLitP : List Token → Option (Nat × List Token)
  | t :: rest =>
      if t.kind = .numericLit then (parseNatTok t.value).map (fun n => (n, rest)) else none
  | [] => none

def identP : List Token → Option (String × List Token)
  | t :: rest => if t.kind = .identK then some (t.value, rest) else none
  | [] => none

/-- The `type_name` production: `r#type` then an optional parenthesized
numeric size (once the `(` is consumed the size and `)` are required). -/
def type_nameP (ts : List Token) : Option (TypeName × List Token) :=
  (typeTokP ts).bind fun p =>
    match p.2 with
    | lp :: rest =>
        if lp.kind = .leftParen then
          (numericLitP rest).bind fun q =>
            match q.2 with
            | rp :: rest2 =>
                if rp.kind = .rightParen then
                  some ({ name := p.1, argument := some q.1 }, rest2)
                else none
            | [] => none
        else some ({ name := p.1, argument := none }, lp :: rest)
    | [] => some ({ name := p.1, argument := none }, [])

/-- The `column_def` production: an identifier followed by a `type_name`. -/
def column_defP (ts : List Token) : Option (ColumnDef × List Token) :=
  (identP ts).bind fun p =>
    (type_nameP p.2).map fun q =>
      ({ column_name := p.1, type_name := q.1 }, q.2)

/-- `sep_by1(column_def, comma)`. -/
def column_defsP : Nat → List Token → Option (List ColumnDef × List Token)
  | 0, _ => none
  | fuel + 1, ts =>
      (column_defP ts).bind fun p =>
        match p.2 with
        | c :: rest =>
            if c.kind = .comma then
              (column_defsP fuel rest).map fun q => (p.1 :: q.1, q.2)
            else some ([p.1], p.2)
        | [] => some ([p.1], [])

/-- The `create` production:
`CREATE TABLE ident '(' column_def (',' column_def)* ')'`. -/
def create_tableP (fuel : Nat) (ts : List Token) :
    Option (CreateTableStatement × List Token) :=
  match ts with
  | t1 :: t2 :: rest =>
      if t1.kind = .createK ∧ t2.kind = .tableK then
        (identP rest).bind fun pn =>
          match pn.2 with
          | lp :: rest2 =>
              if lp.kind = .leftParen then
                (column_defsP fuel rest2).bind fun pc =>
                  match pc.2 with
                  | rp :: rest3 =>
                      if rp.kind = .rightParen then
                        some ({ table_name := pn.1, column_defs := pc.1 }, rest3)
                      else none
                  | [] => none
              else none
          | [] => none
      else none
  | _ => none

/-! ## Concrete scenarios -/

/-- Pull `n` rows through `Table::next_row`, threading the operator state. -/
def pull_rows (fuel : Nat) (r : RowReader) : Nat → Op → List (OpResult (Option (List Nat)))
  | 0, _ => []
  | n + 1, op =>
      match next_row fuel op r with
      | .ok p => .ok p.1 :: pull_rows fuel r n p.2
      | .err => [.err]
      | .panicked => [.panicked]
      | .outOfFuel => [.outOfFuel]

/-! ### Fresh table, two inserts (C1) — `block_size_exp = 6` as in
`Database::new`: 64-byte blocks, 48-byte payloads.  The root and schema
blocks occupy slots 0 and 1 of the file, so the table's data block is
allocated at offset 128.  The schema has a single `Number(1)` column, so a
row slot is 3 bytes. -/

def c1_fields : List FieldKind := [.number 1]

def c1_disk0 : Disk :=
  { block_size := 64, num_allocated_blocks := 2,
    store := [Block.new 64 64, Block.new 0 64] }

/-- The data-block part of `Database::create_table` (allocate the data
block, `init_table` over a `BlockDisk` from that block) followed by two
`Database::add_row` calls (`BlockDisk::new` at the data chain, then
`insert_row`), inserting `Number 5` then `Number 7`. -/
def c1_after_inserts : IOResult Disk :=
  (init_table 99 c1_fields c1_disk0.allocate_block.1
      (BlockDisk.from_block c1_disk0.allocate_block.2)).bind fun q =>
    (BlockDisk.new q.1 128).bind fun r =>
      (insert_row 99 [.number 5 1] r.1 r.2 c1_fields).bind fun s =>
        (BlockDisk.new s.1 128).bind fun t =>
          (insert_row 99 [.number 7 1] t.1 t.2 c1_fields).bind fun u =>
            .ok u.1

/-- Read rows 0, 1 and 2 by index after the two inserts. -/
def c1_reads : IOResult (Option (List Nat) × Option (List Nat) × Option (List Nat)) :=
  c1_after_inserts.bind fun d =>
    (read_nth_row 99 d 128 c1_fields 0).bind fun r0 =>
      (read_nth_row 99 r0.2 128 c1_fields 1).bind fun r1 =>
        (read_nth_row 99 r1.2 128 c1_fields 2).bind fun r2 =>
          .ok (r0.1, r1.1, r2.1)

/-! ### In-block view writes (C4): a fresh block with a 4-byte payload,
one byte written at cursor 0, then the same byte slot overwritten. -/

def c4_block0 : Block := Block.new 0 20

def c4_block1 : Block :=
  match view_write c4_block0 0 [9] with
  | .ok r => r.2.1
  | _ => c4_block0

def c4_block2 : Block :=
  match view_write c4_block1 0 [9] with
  | .ok r => r.2.1
  | _ => c4_block1

/-! ### A read past the end of the chain (C5): a one-block chain with no
next link, fully loaded; the cursor is seeked to the chain's exact capacity
(which allocates nothing), then one byte is read. -/

def c5_block : Block := Block.new 0 64

def c5_disk : Disk :=
  { block_size := 64, num_allocated_blocks := 1, store := [c5_block] }

def c5_bd48 : BlockDisk := { blocks := [c5_block], current_offset := 48 }

/-! ### Cross join of two two-row tables (C2). -/

def c2_A : OnDiskSchema :=
  { data_block_offset := 128,
    schema := { name := "A", fields := [{ name := "x", kind := .number 1 }] } }

def c2_B : OnDiskSchema :=
  { data_block_offset := 192,
    schema := { name := "B", fields := [{ name := "y", kind := .number 1 }] } }

def c2_reader : RowReader := fun name =>
  if name = "A" then [[10], [20]]
  else if name = "B" then [[30], [40]]
  else []

def c2_op0 : Op := .multi [.scan c2_A 0, .scan c2_B 0]

/-! ### The S4 projection/alias scenario (C3):
`users(id INTEGER(8), username VARCHAR(20))` containing `(1,'a')` and
`(2,'b')`; the query `SELECT users.username AS name FROM users;`. -/

def c3_users : OnDiskSchema :=
  { data_block_offset := 128,
    schema := { name := "users",
                fields := [{ name := "id", kind := .number 8 },
                           { name := "username", kind := .str 20 }] } }

def c3_catalog : List OnDiskSchema := [c3_users]

def c3_columns : List ResultColumn :=
  [.expr (.columnIdent { name := "username", table := some "users" }) (some "name")]

/-- The stored payload of `(1, 'a')` (id = 1 in 8 bytes; then the `Str`
encoding of `"a"` in a 20-byte field). -/
def c3_row1 : List Nat := writeIntBE 1 8 ++ beBytes 8 1 ++ [97] ++ List.replicate 19 0

/-- The stored payload of `(2, 'b')`. -/
def c3_row2 : List Nat := writeIntBE 2 8 ++ beBytes 8 1 ++ [98] ++ List.replicate 19 0

def c3_reader : RowReader := fun name =>
  if name = "users" then [c3_row1, c3_row2] else []

def c3_plan : OpResult Op := read_select_statement c3_catalog c3_columns (some ["users"])

/-! ### Two consecutive `current_row` calls on the projection operator
(C6): a one-column table with rows `[1]` and `[2]`, projected through an
identity `MapSchema`. -/

def c6_t : OnDiskSchema :=
  { data_block_offset := 128,
    schema := { name := "t", fields := [{ name := "x", kind := .number 1 }] } }

def c6_reader : RowReader := fun name => if name = "t" then [[1], [2]] else []

def c6_next_schema : List TableField :=
  [{ column := some { name := "x", table := some "t" }, kind := .number 1,
     literal_value := none }]

def c6_map : Op := mk_map_schema c6_next_schema [] (.scan c6_t 0)

/-- The rows returned by two consecutive `current_row` calls with no
intervening `next_row`. -/
def c6_rows : Option (List Nat) × Option (List Nat) :=
  match current_row 99 c6_map c6_reader with
  | .ok p =>
      (p.1,
       match current_row 99 p.2 c6_reader with
       | .ok q => q.1
       | _ => none)
  | _ => (none, none)

/-! ### The token list of `CREATE TABLE t ( c BLOB(10) );` up to the
semicolon (C9).  "BLOB" matches no keyword (`peek_keyword` below), so the
identifier regex class applies and it lexes as an `Ident` token. -/

def c9_tokens : List Token :=
  [{ kind := .createK, value := "CREATE" }, { kind := .tableK, value := "TABLE" },
   { kind := .identK, value := "t" }, { kind := .leftParen, value := "(" },
   { kind := .identK, value := "c" }, { kind := .identK, value := "BLOB" },
   { kind := .leftParen, value := "(" }, { kind := .numericLit, value := "10" },
   { kind := .rightParen, value := ")" }, { kind := .rightParen, value := ")" }]

/-! ### A fresh one-block stream for the seek-allocation witness (C10):
18-byte blocks (2-byte payloads). -/

def c10_block : Block := Block.new 0 18

def c10_disk : Disk :=
  { block_size := 18, num_allocated_blocks := 1, store := [c10_block] }

def c10_bd : BlockDisk := BlockDisk.from_block c10_block

/-! ### Round-trip lemmas for the byte codecs -/

theorem beBytes_length (w n : Nat) : (beBytes w n).length = w := by
  induction w generalizing n with
  | zero => rfl
  | succ w ih => simp [beBytes, ih]

theorem beNat_append_singleton (xs : List Nat) (b : Nat) :
    beNat (xs ++ [b]) = beNat xs * 256 + b := by
  simp [beNat, List.foldl_append]

theorem beNat_beBytes (w n : Nat) : beNat (beBytes w n) = n % 256 ^ w := by
  induction w generalizing n with
  | zero => simp [beBytes, beNat, Nat.mod_one]
  | succ w ih =>
    have hM : 0 < 256 ^ w := pow_pos (by omega) w
    rw [beBytes, beNat_append_singleton, ih]
    have h3 : (256 ^ w * 256) * (n / 256 / 256 ^ w)
        + ((n / 256 % 256 ^ w) * 256 + n % 256) = n := by
      have h1 := Nat.div_add_mod n 256
      have h2 := Nat.div_add_mod (n / 256) (256 ^ w)
      calc (256 ^ w * 256) * (n / 256 / 256 ^ w) + ((n / 256 % 256 ^ w) * 256 + n % 256)
          = 256 * (256 ^ w * (n / 256 / 256 ^ w) + n / 256 % 256 ^ w) + n % 256 := by ring
        _ = 256 * (n / 256) + n % 256 := by rw [h2]
        _ = n := h1
    have hr : n / 256 % 256 ^ w < 256 ^ w := Nat.mod_lt _ hM
    have hs : n % 256 < 256 := Nat.mod_lt _ (by omega)
    have hlt : (n / 256 % 256 ^ w) * 256 + n % 256 < 256 ^ w * 256 := by
      have : (n / 256 % 256 ^ w) * 256 + 256 ≤ 256 ^ w * 256 :=
        by
          have := Nat.succ_le_of_lt hr
          calc (n / 256 % 256 ^ w) * 256 + 256 = (n / 256 % 256 ^ w + 1) * 256 := by ring
            _ ≤ 256 ^ w * 256 := Nat.mul_le_mul_right 256 this
      omega
    have key : n % (256 ^ w * 256) = (n / 256 % 256 ^ w) * 256 + n % 256 := by
      conv_lhs => rw [← h3]
      rw [Nat.mul_add_mod]
      exact Nat.mod_eq_of_lt hlt
    rw [pow_succ]
    exact key.symm

theorem pow256_eq (w : Nat) : (256 : Nat) ^ w = 2 ^ (8 * w) := by
  have : (256 : Nat) = 2 ^ 8 := by norm_num
  rw [this, ← pow_mul]

theorem beNat_beBytes_of_lt (w n : Nat) (h : n < 2 ^ (8 * w)) :
    beNat (beBytes w n) = n := by
  rw [beNat_beBytes, Nat.mod_eq_of_lt]
  rwa [pow256_eq]

theorem writeIntBE_length (v : Int) (w : Nat) : (writeIntBE v w).length = w :=
  beBytes_length _ _

/-- Signed big-endian round trip: `read_int` after `write_int` recovers any
value that fits the width. -/
theorem readIntBE_writeIntBE (w : Nat) (v : Int) (hw : 1 ≤ w)
    (h1 : -(2 : Int) ^ (8 * w - 1) ≤ v) (h2 : v < (2 : Int) ^ (8 * w - 1))
    (rest : List Nat) :
    readIntBE w (writeIntBE v w ++ rest) = v := by
  have hP : (0 : Int) < 2 ^ (8 * w - 1) := by positivity
  have hMpos : (0 : Int) < 2 ^ (8 * w) := by positivity
  have hsplit : (2 : Int) ^ (8 * w) = 2 ^ (8 * w - 1) * 2 := by
    rw [← pow_succ]
    congr 1
    omega
  have htake : (writeIntBE v w ++ rest).take w = writeIntBE v w := by
    have h := List.take_left (writeIntBE v w) rest
    rwa [writeIntBE_length] at h
  have hmod_lt : v % (2 : Int) ^ (8 * w) < 2 ^ (8 * w) :=
    Int.emod_lt_of_pos v hMpos
  have hmod_nonneg : 0 ≤ v % (2 : Int) ^ (8 * w) :=
    Int.emod_nonneg v (by positivity)
  have hz_lt : (v % (2 : Int) ^ (8 * w)).toNat < 2 ^ (8 * w) := by
    zify
    rw [Int.toNat_of_nonneg hmod_nonneg]
    exact_mod_cast hmod_lt
  have hkey : beNat ((writeIntBE v w ++ rest).take w) = (v % (2 : Int) ^ (8 * w)).toNat := by
    rw [htake, writeIntBE]
    exact beNat_beBytes_of_lt w _ (by exact_mod_cast hz_lt)
  simp only [readIntBE, hkey]
  rcases le_or_lt 0 v with hv | hv
  · have hlt : v < 2 ^ (8 * w) := by omega
    have hemod : v % (2 : Int) ^ (8 * w) = v := Int.emod_eq_of_lt hv hlt
    rw [hemod]
    have hsm : (v.toNat : Int) = v := Int.toNat_of_nonneg hv
    have hcond : v.toNat < 2 ^ (8 * w - 1) := by
      have h : (v.toNat : Int) < 2 ^ (8 * w - 1) := by rw [hsm]; exact h2
      exact_mod_cast h
    simp [hcond, hsm]
  · have hvM : 0 ≤ v + 2 ^ (8 * w) := by omega
    have hvM' : v + 2 ^ (8 * w) < 2 ^ (8 * w) := by omega
    have hemod : v % (2 : Int) ^ (8 * w) = v + 2 ^ (8 * w) := by
      have h := Int.add_mul_emod_self_left (a := v) (b := (2 : Int) ^ (8 * w)) (c := 1)
      rw [mul_one] at h
      rw [← h]
      exact Int.emod_eq_of_lt hvM hvM'
    rw [hemod]
    have htn : ((v + 2 ^ (8 * w)).toNat : Int) = v + 2 ^ (8 * w) := Int.toNat_of_nonneg hvM
    have hge : 2 ^ (8 * w - 1) ≤ v + 2 ^ (8 * w) := by omega
    have hgeN : ¬ (v + 2 ^ (8 * w)).toNat < 2 ^ (8 * w - 1) := by
      intro hcontra
      have h : ((v + 2 ^ (8 * w)).toNat : Int) < 2 ^ (8 * w - 1) := by exact_mod_cast hcontra
      omega
    simp only [hgeN, if_false]
    rw [htn]
    ring

/-! ### Round-trip of the cell codec -/

theorem take_append_of_length {α : Type} (l₁ l₂ : List α) (n : Nat) (h : l₁.length = n) :
    (l₁ ++ l₂).take n = l₁ := by
  subst h
  exact List.take_left _ _

theorem drop_append_of_length {α : Type} (l₁ l₂ : List α) (n : Nat) (h : l₁.length = n) :
    (l₁ ++ l₂).drop n = l₂ := by
  subst h
  exact List.drop_left _ _

/-- A conformant cell persists successfully to exactly its field's on-disk
width. -/
theorem persist_ok_length (c : OwnedRowCell) (k : FieldKind)
    (hc : cellConforms c k = true) (hv : validKind k = true) :
    ∃ e, c.persist = .ok e ∧ e.length = k.size := by
  cases c with
  | number v s =>
      cases k with
      | number n =>
          have hs : s = n := by
            simp only [cellConforms, Bool.and_eq_true, beq_iff_eq] at hc
            exact hc.1.1
          have hn : 1 ≤ n ∧ n ≤ 8 := by
            simp only [validKind, Bool.or_eq_true, beq_iff_eq] at hv
            omega
          subst hs
          exact ⟨writeIntBE v s, by simp [OwnedRowCell.persist, hn],
            by simp [writeIntBE_length, FieldKind.size]⟩
      | blob n => simp [cellConforms] at hc
      | str n => simp [cellConforms] at hc
  | str v m =>
      cases k with
      | number n => simp [cellConforms] at hc
      | blob n => simp [cellConforms] at hc
      | str n =>
          have hm : m = n ∧ v.length ≤ n := by
            simp only [cellConforms, Bool.and_eq_true, beq_iff_eq, decide_eq_true_eq] at hc
            exact hc
          obtain ⟨hm1, hm2⟩ := hm
          subst hm1
          refine ⟨beBytes 8 v.length ++ v ++ List.replicate (m - v.length) 0,
            by simp [OwnedRowCell.persist, hm2], ?_⟩
          simp [beBytes_length, FieldKind.size]
          omega
  | blob d =>
      cases k with
      | number n => simp [cellConforms] at hc
      | str n => simp [cellConforms] at hc
      | blob n =>
          have hd : d.length = n := by
            simp only [cellConforms, beq_iff_eq] at hc
            exact hc
          exact ⟨d, rfl, by simp [FieldKind.size, hd]⟩

/-- Decoding a conformant cell's encoding (followed by any suffix) at the
start of the slice recovers the cell. -/
theorem decodeCellSlice_persist (c : OwnedRowCell) (k : FieldKind)
    (hc : cellConforms c k = true) (hv : validKind k = true)
    (e : List Nat) (he : c.persist = .ok e) (rest : List Nat) :
    decodeCellSlice (e ++ rest) k = some c := by
  cases c with
  | number v s =>
      cases k with
      | number n =>
          have hs : s = n ∧ (-(2 : Int) ^ (8 * n - 1) ≤ v) ∧ v < (2 : Int) ^ (8 * n - 1) := by
            simp only [cellConforms, Bool.and_eq_true, beq_iff_eq, decide_eq_true_eq] at hc
            exact ⟨hc.1.1, hc.1.2, hc.2⟩
          obtain ⟨hs1, hr1, hr2⟩ := hs
          subst hs1
          have hn : 1 ≤ s ∧ s ≤ 8 := by
            simp only [validKind, Bool.or_eq_true, beq_iff_eq] at hv
            omega
          have he' : e = writeIntBE v s := by
            simp only [OwnedRowCell.persist, if_pos hn] at he
            cases he
            rfl
          subst he'
          have hlen : s ≤ (writeIntBE v s ++ rest).length := by
            simp [writeIntBE_length]
          simp only [decodeCellSlice, if_pos (⟨hlen, hn.1, hn.2⟩ : _ ∧ _ ∧ _)]
          rw [readIntBE_writeIntBE s v hn.1 hr1 hr2 rest]
      | blob n => simp [cellConforms] at hc
      | str n => simp [cellConforms] at hc
  | str v m =>
      cases k with
      | number n => simp [cellConforms] at hc
      | blob n => simp [cellConforms] at hc
      | str n =>
          have hm : m = n ∧ v.length ≤ n := by
            simp only [cellConforms, Bool.and_eq_true, beq_iff_eq, decide_eq_true_eq] at hc
            exact hc
          obtain ⟨hm1, hm2⟩ := hm
          subst hm1
          have hn64 : m < 2 ^ 64 := by
            simp only [validKind, decide_eq_true_eq] at hv
            exact hv
          have he' : e = beBytes 8 v.length ++ v ++ List.replicate (m - v.length) 0 := by
            simp only [OwnedRowCell.persist, if_pos hm2] at he
            cases he
            rfl
          subst he'
          have hassoc : (beBytes 8 v.length ++ v ++ List.replicate (m - v.length) 0) ++ rest
              = beBytes 8 v.length ++ ((v ++ List.replicate (m - v.length) 0) ++ rest) := by
            simp [List.append_assoc]
          rw [hassoc]
          have htake8 : (beBytes 8 v.length ++ ((v ++ List.replicate (m - v.length) 0) ++ rest)).take 8
              = beBytes 8 v.length :=
            take_append_of_length _ _ 8 (beBytes_length 8 v.length)
          have hdrop8 : (beBytes 8 v.length ++ ((v ++ List.replicate (m - v.length) 0) ++ rest)).drop 8
              = (v ++ List.replicate (m - v.length) 0) ++ rest :=
            drop_append_of_length _ _ 8 (beBytes_length 8 v.length)
          have hlenu : (v ++ List.replicate (m - v.length) 0).length = m := by
            simp
            omega
          have hbe : beNat (beBytes 8 v.length) = v.length :=
            beNat_beBytes_of_lt 8 v.length (by norm_num; omega)
          have h8 : 8 ≤ (beBytes 8 v.length ++ ((v ++ List.replicate (m - v.length) 0) ++ rest)).length := by
            simp [beBytes_length]
          have hcond : m ≤ ((beBytes 8 v.length ++ ((v ++ List.replicate (m - v.length) 0) ++ rest)).drop 8).length
              ∧ beNat ((beBytes 8 v.length ++ ((v ++ List.replicate (m - v.length) 0) ++ rest)).take 8) ≤ m := by
            constructor
            · rw [hdrop8]
              simp only [List.length_append, hlenu]
              omega
            · rw [htake8, hbe]
              exact hm2
          simp only [decodeCellSlice, if_pos h8, if_pos hcond]
          rw [hdrop8, htake8, hbe]
          have htaken : ((v ++ List.replicate (m - v.length) 0) ++ rest).take m
              = v ++ List.replicate (m - v.length) 0 :=
            take_append_of_length _ _ m hlenu
          rw [htaken]
          have htakev : (v ++ List.replicate (m - v.length) 0).take v.length = v :=
            take_append_of_length _ _ v.length rfl
          rw [htakev]
  | blob d =>
      cases k with
      | number n => simp [cellConforms] at hc
      | str n => simp [cellConforms] at hc
      | blob n =>
          have hd : d.length = n := by
            simp only [cellConforms, beq_iff_eq] at hc
            exact hc
          have he' : e = d := by
            simp only [OwnedRowCell.persist] at he
            cases he
            rfl
          subst he'
          have hlen : n ≤ (e ++ rest).length := by
            simp [hd]
          simp only [decodeCellSlice, if_pos hlen]
          rw [take_append_of_length e rest n hd]

/-- Decoding at offset `pre.length` inside `pre ++ e ++ rest`. -/
theorem decodeCellAt_persist (c : OwnedRowCell) (k : FieldKind)
    (hc : cellConforms c k = true) (hv : validKind k = true)
    (e : List Nat) (he : c.persist = .ok e) (pre rest : List Nat) :
    decodeCellAt (pre ++ (e ++ rest)) k pre.length = some c := by
  have hoff : pre.length ≤ (pre ++ (e ++ rest)).length := by
    simp
  have hdrop : (pre ++ (e ++ rest)).drop pre.length = e ++ rest :=
    drop_append_of_length _ _ pre.length rfl
  rw [decodeCellAt, if_pos hoff, hdrop]
  exact decodeCellSlice_persist c k hc hv e he rest

/-- Encoding a conformant row succeeds, and decoding the encoding placed
after any prefix recovers the cells. -/
theorem encodeCells_roundtrip (cells : List OwnedRowCell) :
    ∀ fields, rowConforms cells fields = true →
      ∃ bytes, encodeCells cells = .ok bytes ∧
        ∀ pre : List Nat, intoCellsFrom (pre ++ bytes) fields pre.length = some cells := by
  induction cells with
  | nil =>
      intro fields h
      cases fields with
      | nil => exact ⟨[], rfl, fun pre => by simp [intoCellsFrom]⟩
      | cons k ks => simp [rowConforms] at h
  | cons c cs ih =>
      intro fields h
      cases fields with
      | nil => simp [rowConforms] at h
      | cons k ks =>
          have h' : (cellConforms c k && validKind k && rowConforms cs ks) = true := h
          simp only [Bool.and_eq_true] at h'
          obtain ⟨⟨hc, hv⟩, hrest⟩ := h'
          obtain ⟨e, he, hlen⟩ := persist_ok_length c k hc hv
          obtain ⟨es, hes, hdec⟩ := ih ks hrest
          refine ⟨e ++ es, by simp [encodeCells, he, hes], ?_⟩
          intro pre
          have h1 : decodeCellAt (pre ++ (e ++ es)) k pre.length = some c :=
            decodeCellAt_persist c k hc hv e he pre es
          have h2 : intoCellsFrom (pre ++ (e ++ es)) ks (pre.length + k.size) = some cs := by
            have h3 := hdec (pre ++ e)
            rw [List.append_assoc] at h3
            rwa [List.length_append, hlen] at h3
          simp [intoCellsFrom, h1, h2]

/-! ### Divergence of reads past the chain's end (C5) -/

/-- At C5's failing state the growth step makes no progress: the tail block
has no next link and a read does not force allocation. -/
theorem c5_increase_no_progress :
    increase_read_size_by_block false c5_disk c5_bd48 = .ok (false, c5_disk, c5_bd48) := rfl

/-- The `while` loop of `ensure_num_blocks` never exits at that state — the
`Ok(false)` of `increase_read_size_by_block` is ignored by the source — so it
exhausts any fuel. -/
theorem c5_ensure_diverges (fuel : Nat) :
    ensure_num_blocks fuel 2 false c5_disk c5_bd48 = .outOfFuel := by
  induction fuel with
  | zero => rfl
  | succ fuel ih =>
      have hstep : ensure_num_blocks (fuel + 1) 2 false c5_disk c5_bd48
          = ensure_num_blocks fuel 2 false c5_disk c5_bd48 := rfl
      rw [hstep]
      exact ih

/-! ### The seek growth loop allocates to cover the target (C10) -/

theorem getLast?_append_singleton {α : Type} (l : List α) (a : α) :
    (l ++ [a]).getLast? = some a := by
  induction l with
  | nil => rfl
  | cons hd tl ih =>
      cases tl with
      | nil => rfl
      | cons b tl2 =>
          rw [List.cons_append, List.cons_append, List.getLast?_cons_cons]
          exact ih

/-- `⌈t / bs⌉ ≤ n ↔ t ≤ bs * n` for positive `bs`, with the ceiling written
as the code computes capacities: `(t + bs - 1) / bs`. -/
theorem ceil_le_iff (t bs n : Nat) (hbs : 0 < bs) :
    (t + bs - 1) / bs ≤ n ↔ t ≤ bs * n := by
  rw [Nat.div_le_iff_le_mul_add_pred hbs]
  omega

/-- One forced growth step at a fully-loaded chain (tail has no next link):
`increase_read_size_by_block true` allocates a fresh block at
`num_allocated_blocks * block_size`, links it from the tail, persists the
tail, and appends the new block. -/
theorem increase_force_step (d : Disk) (bd : BlockDisk) (tailB : Block)
    (hlast : bd.blocks.getLast? = some tailB) (hnext : tailB.meta.next_block = none) :
    increase_read_size_by_block true d bd =
      .ok (true,
        { block_size := d.block_size,
          num_allocated_blocks := d.num_allocated_blocks + 1,
          store := tailB.set_next_block (some (d.num_allocated_blocks * d.block_size))
            :: Block.new (d.num_allocated_blocks * d.block_size) d.block_size :: d.store },
        { blocks := bd.blocks.dropLast ++
            [tailB.set_next_block (some (d.num_allocated_blocks * d.block_size)),
             Block.new (d.num_allocated_blocks * d.block_size) d.block_size],
          current_offset := bd.current_offset }) := by
  simp only [increase_read_size_by_block, hlast, hnext, allocate_new_block_at_end,
    Disk.allocate_block, Disk.write_block, IOResult.bind, if_true]
  rfl

/-- The specification of `seek_alloc_loop` over a fully-loaded chain: with
enough fuel it succeeds, the loaded chain grows to
`max (current length) ⌈target / block_size⌉` blocks, and the allocator's
block count increases by exactly the number of fresh blocks. -/
theorem seek_alloc_loop_spec (fuel : Nat) :
    ∀ (d : Disk) (bd : BlockDisk) (target : Nat) (tailB : Block),
      bd.blocks.getLast? = some tailB →
      tailB.meta.next_block = none →
      0 < bd.block_size →
      (target + bd.block_size - 1) / bd.block_size ≤ bd.blocks.length + fuel →
      ∃ d' bd', seek_alloc_loop fuel target d bd = .ok (d', bd') ∧
        bd'.blocks.length
            = max bd.blocks.length ((target + bd.block_size - 1) / bd.block_size) ∧
        d'.num_allocated_blocks = d.num_allocated_blocks
          + (max bd.blocks.length ((target + bd.block_size - 1) / bd.block_size)
              - bd.blocks.length) ∧
        bd'.block_size = bd.block_size ∧
        bd'.current_offset = bd.current_offset ∧
        target ≤ bd'.current_size_allocated := by
  induction fuel with
  | zero =>
      intro d bd target tailB hlast hnext hbs hfuel
      have hceil : (target + bd.block_size - 1) / bd.block_size ≤ bd.blocks.length := by
        omega
      have hcap : target ≤ bd.block_size * bd.blocks.length :=
        (ceil_le_iff _ _ _ hbs).mp hceil
      have hnotlt : ¬ bd.current_size_allocated < target := by
        rw [BlockDisk.current_size_allocated]
        omega
      refine ⟨d, bd, ?_, ?_, ?_, rfl, rfl, ?_⟩
      · have hstep : seek_alloc_loop 0 target d bd
            = if bd.current_size_allocated < target then .outOfFuel else .ok (d, bd) := rfl
        rw [hstep, if_neg hnotlt]
      · omega
      · omega
      · rw [BlockDisk.current_size_allocated]
        omega
  | succ fuel ih =>
      intro d bd target tailB hlast hnext hbs hfuel
      have hstep : seek_alloc_loop (fuel + 1) target d bd
          = if bd.current_size_allocated < target then
              (increase_read_size_by_block true d bd).bind fun t =>
                seek_alloc_loop fuel target t.2.1 t.2.2
            else .ok (d, bd) := rfl
      by_cases hlt : bd.current_size_allocated < target
      · obtain ⟨hd, tl, hcons⟩ : ∃ hd tl, bd.blocks = hd :: tl := by
          cases hbb : bd.blocks with
          | nil => rw [hbb] at hlast; simp at hlast
          | cons a l => exact ⟨a, l, rfl⟩
        have hincr := increase_force_step d bd tailB hlast hnext
        have hlast2 :
            (bd.blocks.dropLast ++
              [tailB.set_next_block (some (d.num_allocated_blocks * d.block_size)),
               Block.new (d.num_allocated_blocks * d.block_size) d.block_size]).getLast?
            = some (Block.new (d.num_allocated_blocks * d.block_size) d.block_size) := by
          have hsplit : bd.blocks.dropLast ++
              [tailB.set_next_block (some (d.num_allocated_blocks * d.block_size)),
               Block.new (d.num_allocated_blocks * d.block_size) d.block_size]
            = (bd.blocks.dropLast ++
                [tailB.set_next_block (some (d.num_allocated_blocks * d.block_size))])
              ++ [Block.new (d.num_allocated_blocks * d.block_size) d.block_size] := by
            simp
          rw [hsplit]
          exact getLast?_append_singleton _ _
        have hnext2 : (Block.new (d.num_allocated_blocks * d.block_size) d.block_size).meta.next_block
            = none := rfl
        have hlen2 : (bd.blocks.dropLast ++
            [tailB.set_next_block (some (d.num_allocated_blocks * d.block_size)),
             Block.new (d.num_allocated_blocks * d.block_size) d.block_size]).length
            = bd.blocks.length + 1 := by
          rw [hcons]
          simp [List.length_dropLast]
        have hbsbd : bd.block_size = hd.data.length := by
          simp [BlockDisk.block_size, hcons]
        have hbs2 : BlockDisk.block_size
            { blocks := bd.blocks.dropLast ++
                [tailB.set_next_block (some (d.num_allocated_blocks * d.block_size)),
                 Block.new (d.num_allocated_blocks * d.block_size) d.block_size],
              current_offset := bd.current_offset }
            = bd.block_size := by
          rw [hbsbd, hcons]
          cases tl with
          | nil =>
              have htail : tailB = hd := by
                rw [hcons] at hlast
                simp [List.getLast?] at hlast
                exact hlast.symm
              subst htail
              simp [BlockDisk.block_size, List.dropLast, Block.set_next_block]
          | cons b tl2 =>
              simp [BlockDisk.block_size, List.dropLast]
        have hbspos2 : 0 < BlockDisk.block_size
            { blocks := bd.blocks.dropLast ++
                [tailB.set_next_block (some (d.num_allocated_blocks * d.block_size)),
                 Block.new (d.num_allocated_blocks * d.block_size) d.block_size],
              current_offset := bd.current_offset } := by
          rw [hbs2]
          exact hbs
        have hfuel2 : (target + BlockDisk.block_size
              { blocks := bd.blocks.dropLast ++
                  [tailB.set_next_block (some (d.num_allocated_blocks * d.block_size)),
                   Block.new (d.num_allocated_blocks * d.block_size) d.block_size],
                current_offset := bd.current_offset } - 1)
              / BlockDisk.block_size
              { blocks := bd.blocks.dropLast ++
                  [tailB.set_next_block (some (d.num_allocated_blocks * d.block_size)),
                   Block.new (d.num_allocated_blocks * d.block_size) d.block_size],
                current_offset := bd.current_offset }
            ≤ (bd.blocks.dropLast ++
                [tailB.set_next_block (some (d.num_allocated_blocks * d.block_size)),
                 Block.new (d.num_allocated_blocks * d.block_size) d.block_size]).length
              + fuel := by
          rw [hbs2, hlen2]
          omega
        obtain ⟨d', bd', hloop, hlenf, hnum, hbsf, hcof, hcapf⟩ :=
          ih { block_size := d.block_size,
               num_allocated_blocks := d.num_allocated_blocks + 1,
               store := tailB.set_next_block (some (d.num_allocated_blocks * d.block_size))
                 :: Block.new (d.num_allocated_blocks * d.block_size) d.block_size :: d.store }
             { blocks := bd.blocks.dropLast ++
                 [tailB.set_next_block (some (d.num_allocated_blocks * d.block_size)),
                  Block.new (d.num_allocated_blocks * d.block_size) d.block_size],
               current_offset := bd.current_offset }
             target (Block.new (d.num_allocated_blocks * d.block_size) d.block_size)
             hlast2 hnext2 hbspos2 hfuel2
        have hltc : bd.blocks.length < (target + bd.block_size - 1) / bd.block_size := by
          by_contra hcon
          have hle : (target + bd.block_size - 1) / bd.block_size ≤ bd.blocks.length := by
            omega
          have := (ceil_le_iff target bd.block_size bd.blocks.length hbs).mp hle
          rw [BlockDisk.current_size_allocated] at hlt
          omega
        rw [hbs2, hlen2] at hlenf hnum
        have hd2num : Disk.num_allocated_blocks
            { block_size := d.block_size,
              num_allocated_blocks := d.num_allocated_blocks + 1,
              store := tailB.set_next_block (some (d.num_allocated_blocks * d.block_size))
                :: Block.new (d.num_allocated_blocks * d.block_size) d.block_size
                :: d.store }
            = d.num_allocated_blocks + 1 := rfl
        rw [hd2num] at hnum
        refine ⟨d', bd', ?_, ?_, ?_, ?_, ?_, hcapf⟩
        · rw [hstep, if_pos hlt, hincr]
          exact hloop
        · rw [hlenf]
          omega
        · rw [hnum]
          omega
        · rw [hbsf]
          exact hbs2
        · exact hcof
      · refine ⟨d, bd, ?_, ?_, ?_, rfl, rfl, ?_⟩
        · rw [hstep, if_neg hlt]
        · have hcap : target ≤ bd.block_size * bd.blocks.length := by
            rw [BlockDisk.current_size_allocated] at hlt
            omega
          have hceil := (ceil_le_iff target bd.block_size bd.blocks.length hbs).mpr hcap
          omega
        · have hcap : target ≤ bd.block_size * bd.blocks.length := by
            rw [BlockDisk.current_size_allocated] at hlt
            omega
          have hceil := (ceil_le_iff target bd.block_size bd.blocks.length hbs).mpr hcap
          omega
        · rw [BlockDisk.current_size_allocated]
          rw [BlockDisk.current_size_allocated] at hlt
          omega

/-! ## The claims -/

/-- C1: the sentinel-row append protocol evaluated on a fresh table
(single `Number(1)` column, 64-byte blocks) with two inserts (values 5 then
7): reading back by index yields row 0 = `[5]`, row 1 = the sentinel
(`none`), and the second inserted value sits in slot 2 — not rows 0..1 =
the inserted values with row 2 the sentinel, as the claim states.
`BlockDiskView::write` increments the block's `size` even when overwriting,
so after the first insert the summed sizes overcount the chain by one row
slot and the second insert's `SeekFrom::End` overwrites one slot past the
live sentinel, leaving the stale sentinel at slot 1.  This contradicts the
repository's own `test_adding_rows` test. -/
theorem c1_insert_protocol_eval :
    c1_reads = .ok (some [5], none, some [7]) := by rfl

/-- C2: the cross-join operator (`MultiTableIterator::next_row`) evaluated
over tables A = `[[10],[20]]` and B = `[[30],[40]]`: the first pulled row is
`[10, 20, 30]` — three components, because the source advances `tables[0]`
and then advances every table again in its sweep loop — instead of the
claimed `(A row 0, B row 0)`; and five pulls all yield rows, already
exceeding the claimed |A|·|B| = 4 total (the reset-on-exhaustion sweep never
reaches the claimed terminal condition). -/
theorem c2_cross_join_eval :
    pull_rows 99 c2_reader 5 c2_op0
      = [.ok (some [10, 20, 30]), .ok (some [10, 40]), .ok (some [20, 10, 30]),
         .ok (some [20, 10, 40]), .ok (some [20, 10, 30])] := by rfl

/-- C3: the planner (`Database::read_select_statement`) on the S4 scenario
`SELECT users.username AS name FROM users;`: it returns the bare table scan
with no `SchemaMap` wrap, even though the single-`name`-column output schema
and the alias map were computed (second conjunct) — they are dropped.  The
resulting operator reports the full two-column qualified schema and pulls
the full stored rows `(1,'a')` and `(2,'b')`, not single-column `name` rows
`'a'`,`'b'` as the claim states. -/
theorem c3_planner_eval :
    c3_plan = .ok (.scan c3_users 0)
    ∧ create_schema_mapping c3_users c3_columns [] []
        = .ok ([{ column := some { name := "name", table := none }, kind := .str 20,
                  literal_value := none }],
               [({ name := "username", table := some "users" }, "name")])
    ∧ Op.schema (.scan c3_users 0)
        = [{ column := some { name := "id", table := some "users" }, kind := .number 8,
             literal_value := none },
           { column := some { name := "username", table := some "users" }, kind := .str 20,
             literal_value := none }]
    ∧ pull_rows 99 c3_reader 3 (.scan c3_users 0)
        = [.ok (some c3_row1), .ok (some c3_row2), .ok none] :=
  ⟨rfl, rfl, rfl, rfl⟩

/-- C4: two one-byte writes through the in-block view at cursor 0 of a
fresh block: after the first write the recorded size is 1, after re-writing
the same byte slot it is 2 — `BlockDiskView::write` does `size += 1` per
byte written — whereas the claimed `max(size before, cursor after)` is 1; so
re-writing already-written bytes does **not** leave the size unchanged.
(The claimed `max` semantics is what the repository's own `test_adding_rows`
needs; see `c1_insert_protocol_eval` for the downstream breakage.) -/
theorem c4_view_write_size_eval :
    c4_block1.meta.size = 1 ∧ c4_block2.meta.size = 2 ∧
      c4_block2.meta.size ≠ max c4_block1.meta.size 1 :=
  ⟨rfl, rfl, by decide⟩

/-- C5: a read at a cursor past the end of the chain does not return a
short read — it never returns.  Seeking a fresh one-block stream (48-byte
payload, no next link) to `Start(48)` terminates and allocates nothing
(first conjunct), but a subsequent 1-byte read exhausts **any** fuel: the
`while` loop of `ensure_num_blocks` ignores the `Ok(false)` "no growth
possible" result of `increase_read_size_by_block`, so the short-read return
of `io::Read for BlockDisk` is unreachable and the read loops forever. -/
theorem c5_read_divergence :
    bd_seek 99 c5_disk (BlockDisk.from_block c5_block) (.start 48)
        = .ok (48, c5_disk, c5_bd48)
    ∧ ∀ fuel : Nat, bd_read fuel c5_disk c5_bd48 1 = .outOfFuel := by
  refine ⟨rfl, ?_⟩
  intro fuel
  cases fuel with
  | zero => rfl
  | succ fuel =>
      have h := c5_ensure_diverges fuel
      obtain ⟨f, hf⟩ : ∃ f, bd_read (fuel + 1) c5_disk c5_bd48 1
          = (ensure_num_blocks fuel 2 false c5_disk c5_bd48).bind f := ⟨_, rfl⟩
      rw [hf, h]
      rfl

/-- C6: reading the current row is **not** non-advancing for every
operator: two consecutive `current_row` calls on the projection operator
(`MapSchema`, over a two-row scan) return the first and then the second row,
because `MapSchema::current_row` calls `next_row` on its child; and the
cross-join operator's `current_row` is `unimplemented!()` (a panic).  Only
the scan's `current_row` is non-advancing. -/
theorem c6_current_row_advances :
    c6_rows = (some [1], some [2])
    ∧ current_row 99 (.multi [.scan c6_t 0]) c6_reader = .panicked :=
  ⟨rfl, rfl⟩

/-- C7: the row codec round-trips.  For every cell vector conforming to a
schema (matching kinds in order, `Number` values fitting their declared
width, `Str` values no longer than their declared max, `Blob`s exactly
their declared size), `Row::from_cells` succeeds and `Row::into_cells`
against the same fields reproduces equal cells. -/
theorem c7_row_roundtrip (cells : List OwnedRowCell) (fields : List FieldKind)
    (h : rowConforms cells fields = true) :
    ∃ r, Row.from_cells cells = .ok r ∧ r.into_cells fields = some cells := by
  obtain ⟨bytes, hb, hdec⟩ := encodeCells_roundtrip cells fields h
  refine ⟨{ data := bytes, is_last_row := false }, ?_, ?_⟩
  · rw [Row.from_cells, hb]
  · have h0 := hdec []
    simpa [Row.into_cells] using h0

theorem c7_row_roundtrip_witness :
    ∃ r, Row.from_cells [.number (-1) 1, .str [97] 2, .blob [5]] = .ok r ∧
      r.into_cells [.number 1, .str 2, .blob 1]
        = some [.number (-1) 1, .str [97] 2, .blob [5]] :=
  c7_row_roundtrip [.number (-1) 1, .str [97] 2, .blob [5]]
    [.number 1, .str 2, .blob 1] (by decide)

/-- C8: encoding a `Str` cell longer than its declared max does not fail
with an error — it panics.  `OwnedRowCell::persist` computes
`max_size as usize - value.len()` for the zero padding, which underflows
(first conjunct: the 3-byte value `"abc"` with `max_size = 2`).  For values
within the declared max the deferred padding does happen (second
conjunct). -/
theorem c8_str_overflow_eval :
    OwnedRowCell.persist (.str [97, 98, 99] 2) = .panicked
    ∧ OwnedRowCell.persist (.str [97] 2) = .ok (beBytes 8 1 ++ [97] ++ [0]) :=
  ⟨rfl, rfl⟩

/-- C9 (counterexample): `BLOB` is not accepted by the type grammar.  No
keyword matches the input `BLOB(10) );` (there is no `blob` keyword in
`Sql::keywords`), so `BLOB` lexes as an `Ident`; the `r#type` production
rejects it, and the concrete statement `CREATE TABLE t ( c BLOB(10) );`
fails to parse — contradicting the claim that `type_name` accepts BLOB and
that such a CREATE TABLE parses into a Blob column. -/
theorem c9_blob_type_counterexample :
    peek_keyword "BLOB(10) );" = none
    ∧ typeTokP [{ kind := .identK, value := "BLOB" }, { kind := .leftParen, value := "(" },
        { kind := .numericLit, value := "10" }, { kind := .rightParen, value := ")" }] = none
    ∧ create_tableP 99 c9_tokens = none :=
  ⟨by decide, rfl, rfl⟩

/-- C9 (amended): the `type_name` production accepts exactly the two type
names INTEGER and VARCHAR, each with an optional parenthesized size
argument; any other leading token — in particular the `Ident` that `BLOB`
lexes to — is rejected. -/
theorem c9_type_name_amended :
    (∀ (v : String) (rest : List Token),
        typeTokP ({ kind := .integerK, value := v } :: rest) = some (.integer, rest))
    ∧ (∀ (v : String) (rest : List Token),
        typeTokP ({ kind := .varcharK, value := v } :: rest) = some (.varchar, rest))
    ∧ (∀ (t : Token) (rest : List Token), t.kind ≠ .integerK → t.kind ≠ .varcharK →
        typeTokP (t :: rest) = none)
    ∧ (∀ rest : List Token,
        type_nameP ({ kind := .varcharK, value := "VARCHAR" }
            :: { kind := .leftParen, value := "(" }
            :: { kind := .numericLit, value := "20" }
            :: { kind := .rightParen, value := ")" } :: rest)
          = some ({ name := .varchar, argument := some 20 }, rest)) := by
  refine ⟨fun v rest => rfl, fun v rest => rfl, ?_, fun rest => rfl⟩
  intro t rest h1 h2
  rw [typeTokP, if_neg h1, if_neg h2]

theorem c9_type_name_amended_witness :
    typeTokP [{ kind := .identK, value := "blob" }] = none :=
  c9_type_name_amended.2.2.1 { kind := .identK, value := "blob" } []
    (by decide) (by decide)

/-- C10: a seek whose resolved target lies beyond the end of the (fully
loaded, tail-unlinked) block chain allocates fresh blocks from the backing
allocator until the chain covers the target: the allocator's block count
increases by exactly `⌈target / block_size⌉ - (blocks in the chain)` — in
particular it strictly increases — the cursor lands on the target, and the
chain's capacity now covers it.  The hypothesis on `bd_seek_target` covers
both seek-from-start and seek-from-current with a non-negative result,
which share this growth loop. -/
theorem c10_seek_allocates (fuel : Nat) (d : Disk) (bd : BlockDisk) (pos : SeekFrom)
    (t : Nat) (tailB : Block)
    (hpos : bd_seek_target fuel d bd pos = .ok (t, d, bd))
    (hlast : bd.blocks.getLast? = some tailB)
    (hnext : tailB.meta.next_block = none)
    (hbs : 0 < bd.block_size)
    (hbeyond : bd.current_size_allocated < t)
    (hfuel : (t + bd.block_size - 1) / bd.block_size ≤ bd.blocks.length + fuel) :
    ∃ d' bd', bd_seek fuel d bd pos = .ok (t, d', bd') ∧
      d'.num_allocated_blocks
          = d.num_allocated_blocks
            + ((t + bd.block_size - 1) / bd.block_size - bd.blocks.length) ∧
      d.num_allocated_blocks < d'.num_allocated_blocks ∧
      bd'.current_offset = t ∧
      t ≤ bd'.current_size_allocated := by
  obtain ⟨d', bd', hloop, hlen, hnum, hbsf, hcof, hcap⟩ :=
    seek_alloc_loop_spec fuel d bd t tailB hlast hnext hbs hfuel
  have hltc : bd.blocks.length < (t + bd.block_size - 1) / bd.block_size := by
    by_contra hcon
    have hle : (t + bd.block_size - 1) / bd.block_size ≤ bd.blocks.length := by omega
    have := (ceil_le_iff t bd.block_size bd.blocks.length hbs).mp hle
    rw [BlockDisk.current_size_allocated] at hbeyond
    omega
  refine ⟨d', { bd' with current_offset := t }, ?_, by omega, by omega, rfl, ?_⟩
  · rw [bd_seek, hpos]
    simp only [IOResult.bind]
    rw [hloop]
  · have hsame : BlockDisk.current_size_allocated { bd' with current_offset := t }
        = bd'.current_size_allocated := rfl
    rw [hsame]
    exact hcap

theorem c10_seek_allocates_witness :
    ∃ d' bd', bd_seek 5 c10_disk c10_bd (.start 5) = .ok (5, d', bd') ∧
      d'.num_allocated_blocks
          = c10_disk.num_allocated_blocks
            + ((5 + c10_bd.block_size - 1) / c10_bd.block_size - c10_bd.blocks.length) ∧
      c10_disk.num_allocated_blocks < d'.num_allocated_blocks ∧
      bd'.current_offset = 5 ∧
      5 ≤ bd'.current_size_allocated :=
  c10_seek_allocates 5 c10_disk c10_bd (.start 5) 5 c10_block rfl rfl rfl
    (by decide) (by decide) (by decide)

end Relatable
